import Mathlib

/-!
Verification of the event-stream recorder/player subsystem.

Shallow embedding of the repository's JavaScript sources:
  - `EventStreamPlayer.js` (playback clock and scheduler),
  - `EventStreamWriter.js` (action sink / durable storage),
  - `ActionTrackingRecorder.js` (integrator).

JavaScript numbers are modelled as exact rationals (`ℚ`); timestamps,
wall-clock instants and playback speeds are all `ℚ`.  `Date.now()` is made
explicit: every state transition that reads the wall clock takes a `now`
argument.  Node's asynchronous file system is modelled by passing the outcome
of each file-system call as an explicit argument, and side effects (directory
creation, file writes, emitted events) are returned as explicit effect lists.
-/

namespace EventStream

/-- One entry of the action log: a record with a `type` tag and a virtual
`timestamp` in milliseconds.  Further payload fields are opaque to the
scheduler and are not modelled. -/
structure Action where
  type : String
  timestamp : ℚ
deriving DecidableEq, Repr

/-- A timer armed by `setTimeout`: the log index of its action, the wall-clock
delay it was armed with, and the action its callback will emit. -/
abbrev Timer := Nat × ℚ × Action

/-- Events observable on the player's event-emitter channel. -/
inductive PEvent where
  | actionE (a : Action)
  | actionTypedE (ty : String) (a : Action)
  | playE (timestamp : ℚ) (actionIndex : Int)
  | pauseE (timestamp : ℚ) (actionIndex : Int)
  | seekE (timestamp : ℚ) (actionIndex : Int)
  | speedE (speed : ℚ)
  | stopE
deriving DecidableEq, Repr

/-- Player state: the mutable fields of `EventStreamPlayer` together with the
options the claims depend on (`playbackSpeed`, `loop`, `debugMode`; the
remaining options do not influence any modelled transition).  `actionIndex`
is an `Int` because `Array.prototype.findIndex` returns `-1` on failure. -/
structure PlayerState where
  actionLog : List Action
  currentTimestamp : ℚ
  startTime : ℚ
  isPlaying : Bool
  isPaused : Bool
  actionIndex : Int
  playbackSpeed : ℚ
  loop : Bool
  debugMode : Bool
deriving DecidableEq, Repr

/-- The `EventStreamPlayer` constructor: option defaults merged with
overrides, all playback state zeroed. -/
def mkPlayer (speed : ℚ) (loop debugMode : Bool) : PlayerState :=
  { actionLog := []
    currentTimestamp := 0
    startTime := 0
    isPlaying := false
    isPaused := false
    actionIndex := 0
    playbackSpeed := speed
    loop := loop
    debugMode := debugMode }

/-- Result of a player transition: the new state, the events emitted
synchronously during the call (in order), and the timers armed by the call.
Timers armed by earlier calls are always cleared first by the source
(`clearScheduledActions`), so each call's armed set stands alone. -/
structure PResult where
  state : PlayerState
  events : List PEvent
  timers : List Timer
deriving DecidableEq, Repr

/-- `calculateCurrentTimestamp` (EventStreamPlayer.js lines 299-304): the
frozen `currentTimestamp` when stopped or paused, otherwise
`(Date.now() - startTime) * playbackSpeed`. -/
def calculateCurrentTimestamp (s : PlayerState) (now : ℚ) : ℚ :=
  if !s.isPlaying then s.currentTimestamp
  else if s.isPaused then s.currentTimestamp
  else (now - s.startTime) * s.playbackSpeed

/-- `findActionIndex` (lines 213-216): `Array.prototype.findIndex` applied to
the predicate `action.timestamp >= t` — the index of the first action whose
timestamp is at least `t`, and `-1` when there is none. -/
def findActionIndex (log : List Action) (t : ℚ) : Int :=
  match log with
  | [] => -1
  | a :: rest =>
    if t ≤ a.timestamp then 0
    else
      let r := findActionIndex rest t
      if r = -1 then -1 else r + 1

/-- `getDuration` (lines 310-313): timestamp of the last log entry, `0` for
an empty log. -/
def getDuration (log : List Action) : ℚ :=
  match log.getLast? with
  | none => 0
  | some a => a.timestamp

/-- `emitAction` (lines 280-285): the generic `action` event followed by the
type-specific variant. -/
def emitAction (a : Action) : List PEvent :=
  [PEvent.actionE a, PEvent.actionTypedE a.type a]

/-- The body of the `for` loop of `scheduleNextActions` (lines 241-273),
walking the suffix of the log from position `i` while threading the running
value of `this.actionIndex` (`idx`).  For each action it computes
`delay = timestamp / playbackSpeed - currentTime`; if `delay < 0` it emits
the action now only in `debugMode` and sets `actionIndex = i + 1`, otherwise
it arms a one-shot timer for `delay`.  Returns (actions emitted now, final
`actionIndex`, armed timers). -/
def schedulePassAux (speed : ℚ) (debug : Bool) (currentTime : ℚ) :
    List Action → Nat → Int → List Action × Int × List Timer
  | [], _, idx => ([], idx, [])
  | a :: rest, i, idx =>
    if a.timestamp / speed - currentTime < 0 then
      let r := schedulePassAux speed debug currentTime rest (i + 1) ((i : Int) + 1)
      (if debug then a :: r.1 else r.1, r.2.1, r.2.2)
    else
      let r := schedulePassAux speed debug currentTime rest (i + 1) idx
      (r.1, r.2.1, (i, a.timestamp / speed - currentTime, a) :: r.2.2)

/-- The scheduling loop of `scheduleNextActions`, started at
`startIdx = this.actionIndex`.  The source iterates `i` from `actionIndex` to
`actionLog.length - 1`; for a negative `actionIndex` the JavaScript loop
would read the nonexistent slot `actionLog[-1]` (producing a NaN delay), a
degenerate float path outside this integer model, so iteration starts at
`startIdx.toNat` while the threaded `actionIndex` value is kept exact. -/
def schedulePass (log : List Action) (speed : ℚ) (debug : Bool)
    (startIdx : Int) (currentTime : ℚ) : List Action × Int × List Timer :=
  schedulePassAux speed debug currentTime (log.drop startIdx.toNat)
    startIdx.toNat startIdx

/-- The non-guard part of `scheduleNextActions` (lines 238-273): compute the
current playback position, run the scheduling pass, store the resulting
`actionIndex`. -/
def scheduleCore (s : PlayerState) (now : ℚ) :
    PlayerState × List PEvent × List Timer :=
  let currentTime := calculateCurrentTimestamp s now
  let r := schedulePass s.actionLog s.playbackSpeed s.debugMode s.actionIndex currentTime
  ({ s with actionIndex := r.2.1 }, r.1.flatMap emitAction, r.2.2)

/-- `scheduleNextActions` (lines 221-274).  The guard (line 226) returns
early when not actively playing or when the cursor is at or past the end; in
the latter case, with `loop` set, it resets position and start time and
re-invokes itself (lines 227-233).  That self-invocation is unrolled once
here: it reaches the main pass exactly when the reset state passes the guard.
With `loop` set and an empty log the source re-invokes itself without
progress (infinite recursion); that divergent case is represented by
returning the reset state. -/
def scheduleNextActions (s : PlayerState) (now : ℚ) :
    PlayerState × List PEvent × List Timer :=
  if !s.isPlaying || s.isPaused || (s.actionLog.length : Int) ≤ s.actionIndex then
    if (s.actionLog.length : Int) ≤ s.actionIndex && s.loop then
      let s1 := { s with currentTimestamp := 0, actionIndex := 0, startTime := now }
      if !s1.isPlaying || s1.isPaused || (s1.actionLog.length : Int) ≤ s1.actionIndex then
        (s1, [], [])
      else scheduleCore s1 now
    else (s, [], [])
  else scheduleCore s now

/-- `play` (lines 97-124): no-op when actively playing.  On resume it clears
`isPaused` and re-anchors `startTime = now - currentTimestamp / speed`; on a
fresh start it uses the same anchor and recomputes `actionIndex` with
`findActionIndex(currentTimestamp)`.  It then sets `isPlaying`, schedules,
and emits `play` with the resulting position and cursor. -/
def play (s : PlayerState) (now : ℚ) : PResult :=
  if s.isPlaying && !s.isPaused then ⟨s, [], []⟩
  else
    let s1 :=
      if s.isPaused then
        { s with isPaused := false,
                 startTime := now - s.currentTimestamp / s.playbackSpeed }
      else
        { s with startTime := now - s.currentTimestamp / s.playbackSpeed,
                 actionIndex := findActionIndex s.actionLog s.currentTimestamp }
    let s2 := { s1 with isPlaying := true }
    let r := scheduleNextActions s2 now
    ⟨r.1, r.2.1 ++ [PEvent.playE r.1.currentTimestamp r.1.actionIndex], r.2.2⟩

/-- `pause` (lines 129-147): no-op unless actively playing.  The source sets
`isPaused = true` first (line 132) and only then assigns
`currentTimestamp = calculateCurrentTimestamp()` (line 133); with `isPaused`
already true that call returns the stored `currentTimestamp`, so the
assignment keeps the old value.  The embedding reproduces that order. -/
def pause (s : PlayerState) (now : ℚ) : PResult :=
  if !s.isPlaying || s.isPaused then ⟨s, [], []⟩
  else
    let s1 := { s with isPaused := true }
    let s2 := { s1 with currentTimestamp := calculateCurrentTimestamp s1 now }
    ⟨s2, [PEvent.pauseE s2.currentTimestamp s2.actionIndex], []⟩

/-- `stop` (lines 152-170): no-op unless playing; resets position, cursor and
both flags, cancels timers, emits `stop`. -/
def stopPlayer (s : PlayerState) : PResult :=
  if !s.isPlaying then ⟨s, [], []⟩
  else
    ⟨{ s with isPlaying := false, isPaused := false,
              currentTimestamp := 0, actionIndex := 0 },
     [PEvent.stopE], []⟩

/-- `seekTo` (lines 176-206): clamp the target to `[0, duration]`, pause if
actively playing, overwrite `currentTimestamp` and `actionIndex`, emit
`seek`, and resume only if it was actively playing before the call. -/
def seekTo (s : PlayerState) (t : ℚ) (now : ℚ) : PResult :=
  let duration := getDuration s.actionLog
  let t1 := max 0 (min t duration)
  let wasPlaying := s.isPlaying && !s.isPaused
  let r1 := if wasPlaying then pause s now else ⟨s, [], []⟩
  let s2 := { r1.state with
              currentTimestamp := t1,
              actionIndex := findActionIndex r1.state.actionLog t1 }
  let r2 := if wasPlaying then play s2 now else ⟨s2, [], []⟩
  ⟨r2.state,
   r1.events ++ [PEvent.seekE s2.currentTimestamp s2.actionIndex] ++ r2.events,
   r2.timers⟩

/-- `setPlaybackSpeed` (lines 319-339): silently rejects non-positive speeds;
otherwise pauses if actively playing, updates `options.playbackSpeed`,
resumes if it was playing, and emits `speedChanged`. -/
def setPlaybackSpeed (s : PlayerState) (speed : ℚ) (now : ℚ) : PResult :=
  if speed ≤ 0 then ⟨s, [], []⟩
  else
    let wasPlaying := s.isPlaying && !s.isPaused
    let r1 := if wasPlaying then pause s now else ⟨s, [], []⟩
    let s2 := { r1.state with playbackSpeed := speed }
    let r2 := if wasPlaying then play s2 now else ⟨s2, [], []⟩
    ⟨r2.state, r1.events ++ r2.events ++ [PEvent.speedE speed], r2.timers⟩

/-- Stable insertion of an armed timer into the firing queue: a timer fires
after every timer with a strictly smaller delay and after earlier-armed
timers with the same delay (`setTimeout` fires equal delays in arming
order). -/
def insertTimer (x : Timer) : List Timer → List Timer
  | [] => [x]
  | y :: ys => if y.2.1 < x.2.1 then y :: insertTimer x ys else x :: y :: ys

/-- The order in which a batch of timers armed at one instant fires:
ascending delay, ties in arming order (insertion sort is stable here because
`insertTimer` places a timer before later-armed timers of equal delay). -/
def sortTimers : List Timer → List Timer
  | [] => []
  | x :: xs => insertTimer x (sortTimers xs)

/-- The sequence of actions emitted by the timer callbacks of one armed
batch, in firing order.  Each callback (lines 254-269) emits its captured
action and advances `actionIndex`; with `loop` disabled the only other
callback effect is the final `stop()` after the last action, which does not
change the emitted sequence. -/
def fireSequence (timers : List Timer) : List Action :=
  (sortTimers timers).map (fun t => t.2.2)

/-- Outcome of one `fs.mkdir` call, supplied by the environment: success, or
failure with a Node error `code` (for example `EEXIST` or `EACCES`). -/
inductive MkdirOutcome where
  | ok
  | err (code : String)
deriving DecidableEq, Repr

/-- A thrown directory-creation error: the `type` the writer reports on its
error channel together with the Node error code. -/
structure DirError where
  type : String
  code : String
deriving DecidableEq, Repr

/-- Side effects performed by the writer, in order. -/
inductive WEffect where
  | mkdirE (dir : String)
  | writerStartedE (outputPath : String) (actionLogPath : String)
  | fileWriteE (p : Option String)
  | errorE (ty : String)
  | videoClosedE
  | writerStoppedE
deriving DecidableEq, Repr

/-- The options of `EventStreamWriter` read by the modelled operations. -/
structure WriterOptions where
  actionLogPath : Option String
  captureVideo : Bool
  immediateActionWrites : Bool
deriving DecidableEq, Repr

/-- Writer state: the fields of `EventStreamWriter`.  The placeholder video
writer carries no data, so it is modelled by its presence bit. -/
structure WriterState where
  options : WriterOptions
  actionLog : List Action
  videoWriter : Bool
  outputPath : Option String
  actionLogPath : Option String
  isWriting : Bool
deriving DecidableEq, Repr

/-- The `EventStreamWriter` constructor (EventStreamWriter.js lines 14-22):
empty log, no video writer, both paths `null`, and `isWriting`
initialized to `true`. -/
def mkWriter (opts : WriterOptions) : WriterState :=
  { options := opts
    actionLog := []
    videoWriter := false
    outputPath := none
    actionLogPath := none
    isWriting := true }

/-- Node's `path.dirname`, an external collaborator: everything before the
last path separator. -/
def dirname (p : String) : String :=
  String.intercalate "/" (p.splitOn "/").dropLast

/-- The last component of a path (Node's `path.basename` without an
extension argument), an external collaborator. -/
def lastComponent (p : String) : String :=
  ((p.splitOn "/").getLast? ).getD p

/-- Strips the final dot-extension from a file name, modelling the
`path.basename(p, path.extname(p))` combination, an external collaborator. -/
def stripExt (name : String) : String :=
  let parts := name.splitOn "."
  if parts.length ≤ 1 then name else String.intercalate "." parts.dropLast

/-- The derived action-log path of `EventStreamWriter.start` (lines 35-37):
`path.join(path.dirname(basePath), basename-without-extension + "_actions.json")`. -/
def defaultActionLogPath (basePath : String) : String :=
  dirname basePath ++ "/" ++ stripExt (lastComponent basePath) ++ "_actions.json"

/-- `ensureDirectoryExist` (lines 191-204): attempts `fs.mkdir`; on failure
with a code other than `EEXIST` it reports a `directoryCreate` error and
rethrows; an `EEXIST` failure is swallowed. -/
def ensureDirectoryExist (dir : String) (o : MkdirOutcome) :
    Except DirError (List WEffect) :=
  match o with
  | MkdirOutcome.ok => Except.ok [WEffect.mkdirE dir]
  | MkdirOutcome.err code =>
    if code = "EEXIST" then Except.ok []
    else Except.error ⟨"directoryCreate", code⟩

/-- `EventStreamWriter.start` (lines 28-52): returns immediately when
`isWriting` is already set; otherwise sets `isWriting`, stores the output
and action-log paths, ensures both directories exist (propagating directory
errors), optionally initializes the video writer, and emits `writerStarted`.
The two `MkdirOutcome` arguments are the outcomes of the two `fs.mkdir`
calls. -/
def writerStart (w : WriterState) (basePath : String) (o1 o2 : MkdirOutcome) :
    Except DirError (WriterState × List WEffect) :=
  if w.isWriting then Except.ok (w, [])
  else
    let alp := w.options.actionLogPath.getD (defaultActionLogPath basePath)
    let w1 := { w with isWriting := true, outputPath := some basePath,
                       actionLogPath := some alp }
    match ensureDirectoryExist (dirname basePath) o1 with
    | Except.error e => Except.error e
    | Except.ok e1 =>
      match ensureDirectoryExist (dirname alp) o2 with
      | Except.error e => Except.error e
      | Except.ok e2 =>
        let w2 := if w1.options.captureVideo then { w1 with videoWriter := true } else w1
        Except.ok (w2, e1 ++ e2 ++ [WEffect.writerStartedE basePath alp])

/-- The value returned by `EventStreamWriter.stop` on its active path
(lines 136-140). -/
structure StopResult where
  videoPath : Option String
  actionLogPath : Option String
  actionLog : List Action
deriving DecidableEq, Repr

/-- `EventStreamWriter.stop` (lines 117-141): when `isWriting` is false it
returns immediately with no value (`undefined`, modelled as `none`) and no
effects.  Otherwise it saves the full action log (`saveActionLog` swallows a
write failure, reporting an `actionLogSave` error event), closes the video
writer if present, clears `isWriting`, emits `writerStopped`, and returns the
final log and its locations.  `writeOk` is the outcome of the
`fs.writeFile` call. -/
def writerStop (w : WriterState) (writeOk : Bool) :
    WriterState × Option StopResult × List WEffect :=
  if !w.isWriting then (w, none, [])
  else
    let saveEffects :=
      if writeOk then [WEffect.fileWriteE w.actionLogPath]
      else [WEffect.errorE "actionLogSave"]
    let closeEffects := if w.videoWriter then [WEffect.videoClosedE] else []
    ({ w with isWriting := false },
     some ⟨w.outputPath, w.actionLogPath, w.actionLog⟩,
     saveEffects ++ closeEffects ++ [WEffect.writerStoppedE])

/-- Recorder state: the fields of `ActionTrackingRecorder` that its `stop`
path touches (the collector is an external collaborator whose `stop` has no
modelled effect). -/
structure RecorderState where
  isRecording : Bool
  recordingResult : Option StopResult
  writer : WriterState
deriving DecidableEq, Repr

/-- `ActionTrackingRecorder.stop` (ActionTrackingRecorder.js lines 99-118):
when not recording it returns the cached `recordingResult`; otherwise it
clears `isRecording`, stops the collector, stops the writer, caches and
returns the writer's result. -/
def recorderStop (r : RecorderState) (writeOk : Bool) :
    RecorderState × Option StopResult :=
  if !r.isRecording then (r, r.recordingResult)
  else
    let w := writerStop r.writer writeOk
    ({ r with isRecording := false, writer := w.1, recordingResult := w.2.1 },
     w.2.1)

/-! ### Concrete sample states used by witnesses and counterexamples -/

/-- The three-action log of the spec's concrete scenarios. -/
def log3 : List Action :=
  [⟨"click", 0⟩, ⟨"input", 1000⟩, ⟨"navigation", 2500⟩]

/-- A player paused at virtual position 500 on `log3`, the click already
emitted (cursor at 1), speed still 1. -/
def pausedAt500 : PlayerState :=
  { actionLog := log3
    currentTimestamp := 500
    startTime := 0
    isPlaying := true
    isPaused := true
    actionIndex := 1
    playbackSpeed := 1
    loop := false
    debugMode := false }

/-! ### Claim theorems -/

/-- C2: for every `EventStreamWriter` as constructed and every base path,
`start(basePath)` performs none of its setup: `isWriting` is initialized to
`true`, so `start` returns at its guard, leaving the state unchanged (in
particular `outputPath` and `actionLogPath` stay `null`), creating no
directories and emitting no `writerStarted` event. -/
theorem writerStart_fresh_noop (opts : WriterOptions) (basePath : String)
    (o1 o2 : MkdirOutcome) :
    writerStart (mkWriter opts) basePath o1 o2 = Except.ok (mkWriter opts, []) ∧
    (mkWriter opts).outputPath = none ∧
    (mkWriter opts).actionLogPath = none ∧
    (mkWriter opts).isWriting = true := by
  refine ⟨?_, rfl, rfl, rfl⟩
  simp [writerStart, mkWriter]

/-- C7: when the writer's setup actually runs (isWriting is false at the
call) and the first directory creation fails with any code other than
`EEXIST`, `start` rejects with the `directoryCreate` error instead of
swallowing it. -/
theorem writerStart_propagates_direrror (w : WriterState) (basePath : String)
    (code : String) (o2 : MkdirOutcome)
    (hw : w.isWriting = false) (hc : code ≠ "EEXIST") :
    writerStart w basePath (MkdirOutcome.err code) o2 =
      Except.error ⟨"directoryCreate", code⟩ := by
  simp [writerStart, hw, ensureDirectoryExist, hc]

/-- Witness for C7 at a concrete writer and a concrete `EACCES` failure. -/
theorem writerStart_propagates_direrror_witness :
    writerStart { mkWriter ⟨none, false, false⟩ with isWriting := false }
        "out/rec.mp4" (MkdirOutcome.err "EACCES") MkdirOutcome.ok =
      Except.error ⟨"directoryCreate", "EACCES"⟩ :=
  writerStart_propagates_direrror _ _ _ _ rfl (by decide)

/-- C6 counterexample: after one completed `stop()` the writer is inactive
and holds a prior result, but a second `EventStreamWriter.stop()` returns no
value at all (`undefined`) rather than the prior final log and location. -/
theorem writerStop_second_returns_nothing :
    (writerStop (mkWriter ⟨none, false, false⟩) true).2.1 ≠ none ∧
    (writerStop (writerStop (mkWriter ⟨none, false, false⟩) true).1 true).2.1
      = none := by
  decide

/-- C6 (amended): calling `EventStreamWriter.stop()` with no active session
raises no error and leaves the writer unchanged, but returns no value
(`undefined`) rather than the prior result; the prior result is retained and
returned by `ActionTrackingRecorder.stop()`, which caches it in
`recordingResult`. -/
theorem stop_idempotent_amended :
    (∀ (w : WriterState), w.isWriting = false →
      ∀ ok, writerStop w ok = (w, none, [])) ∧
    (∀ (r : RecorderState), r.isRecording = false →
      ∀ ok, recorderStop r ok = (r, r.recordingResult)) := by
  constructor
  · intro w hw ok
    simp [writerStop, hw]
  · intro r hr ok
    simp [recorderStop, hr]

/-- Witness for the amended C6 at a concrete inactive writer and recorder. -/
theorem stop_idempotent_amended_witness :
    writerStop { mkWriter ⟨none, false, false⟩ with isWriting := false } true =
      ({ mkWriter ⟨none, false, false⟩ with isWriting := false }, none, []) ∧
    recorderStop ⟨false, none, mkWriter ⟨none, false, false⟩⟩ true =
      (⟨false, none, mkWriter ⟨none, false, false⟩⟩, none) :=
  ⟨stop_idempotent_amended.1 _ rfl true,
   stop_idempotent_amended.2 ⟨false, none, mkWriter ⟨none, false, false⟩⟩ rfl true⟩

/-- C8: `seekTo(t)` clamps the target to `[0, duration]` with `duration` the
last log entry's timestamp (`getDuration [] = 0` for the empty log), and when
the player is paused it updates `currentTimestamp` and `actionIndex` but
leaves the player paused and playing-flag intact. -/
theorem seekTo_paused (s : PlayerState) (t now : ℚ)
    (hp : s.isPlaying = true) (hq : s.isPaused = true) :
    (seekTo s t now).state.currentTimestamp
        = max 0 (min t (getDuration s.actionLog)) ∧
    (seekTo s t now).state.actionIndex
        = findActionIndex s.actionLog (max 0 (min t (getDuration s.actionLog))) ∧
    (seekTo s t now).state.isPlaying = true ∧
    (seekTo s t now).state.isPaused = true ∧
    getDuration ([] : List Action) = 0 := by
  simp [seekTo, hp, hq, getDuration]

/-- Witness for C8: seeking to 9999 on a paused player clamps to the
duration 2500 and leaves it paused. -/
theorem seekTo_paused_witness :
    (seekTo pausedAt500 9999 0).state.currentTimestamp
        = max 0 (min 9999 (getDuration pausedAt500.actionLog)) ∧
    (seekTo pausedAt500 9999 0).state.actionIndex
        = findActionIndex pausedAt500.actionLog
            (max 0 (min 9999 (getDuration pausedAt500.actionLog))) ∧
    (seekTo pausedAt500 9999 0).state.isPlaying = true ∧
    (seekTo pausedAt500 9999 0).state.isPaused = true ∧
    getDuration ([] : List Action) = 0 :=
  seekTo_paused pausedAt500 9999 0 rfl rfl

/-- C10: for every speed `s > 0`, `setPlaybackSpeed(s)` on a paused player
updates only `options.playbackSpeed` and emits `speedChanged`; position,
cursor, anchor and both flags are untouched, so the player stays paused. -/
theorem setPlaybackSpeed_paused (s : PlayerState) (sp now : ℚ)
    (hsp : 0 < sp) (hp : s.isPlaying = true) (hq : s.isPaused = true) :
    (setPlaybackSpeed s sp now).state = { s with playbackSpeed := sp } ∧
    PEvent.speedE sp ∈ (setPlaybackSpeed s sp now).events ∧
    (setPlaybackSpeed s sp now).state.currentTimestamp = s.currentTimestamp ∧
    (setPlaybackSpeed s sp now).state.actionIndex = s.actionIndex ∧
    (setPlaybackSpeed s sp now).state.startTime = s.startTime ∧
    (setPlaybackSpeed s sp now).state.isPlaying = s.isPlaying ∧
    (setPlaybackSpeed s sp now).state.isPaused = s.isPaused := by
  have h0 : ¬ sp ≤ 0 := not_le.mpr hsp
  simp [setPlaybackSpeed, h0, hp, hq]

/-- Witness for C10 at the concrete paused sample player and speed 2. -/
theorem setPlaybackSpeed_paused_witness :
    (setPlaybackSpeed pausedAt500 2 0).state
        = { pausedAt500 with playbackSpeed := 2 } ∧
    PEvent.speedE 2 ∈ (setPlaybackSpeed pausedAt500 2 0).events ∧
    (setPlaybackSpeed pausedAt500 2 0).state.currentTimestamp
        = pausedAt500.currentTimestamp ∧
    (setPlaybackSpeed pausedAt500 2 0).state.actionIndex
        = pausedAt500.actionIndex ∧
    (setPlaybackSpeed pausedAt500 2 0).state.startTime
        = pausedAt500.startTime ∧
    (setPlaybackSpeed pausedAt500 2 0).state.isPlaying
        = pausedAt500.isPlaying ∧
    (setPlaybackSpeed pausedAt500 2 0).state.isPaused
        = pausedAt500.isPaused :=
  setPlaybackSpeed_paused _ 2 0 (by norm_num) rfl rfl

/-- C9: `findActionIndex(t)` returns `-1` whenever no action in the log has
timestamp at least `t`; in particular on an empty log both `seekTo` and a
fresh `play()` leave `actionIndex` at `-1` rather than at a
first-not-yet-emitted position. -/
theorem findActionIndex_none_is_neg_one :
    (∀ (log : List Action) (t : ℚ), (∀ a ∈ log, a.timestamp < t) →
        findActionIndex log t = -1) ∧
    (∀ (s : PlayerState) (t now : ℚ), s.actionLog = [] →
        (seekTo s t now).state.actionIndex = -1) ∧
    (∀ (s : PlayerState) (now : ℚ), s.actionLog = [] →
        s.isPlaying = false → s.isPaused = false →
        (play s now).state.actionIndex = -1) := by
  refine ⟨?_, ?_, ?_⟩
  · intro log t h
    induction log with
    | nil => rfl
    | cons a rest ih =>
      have ha : ¬ t ≤ a.timestamp := not_le.mpr (h a (List.mem_cons_self a rest))
      have hr : findActionIndex rest t = -1 :=
        ih (fun b hb => h b (List.mem_cons_of_mem a hb))
      simp [findActionIndex, ha, hr]
  · intro s t now h
    by_cases hp : s.isPlaying
    · by_cases hq : s.isPaused
      · simp [seekTo, hp, hq, findActionIndex, h]
      · simp [seekTo, pause, play, scheduleNextActions, scheduleCore,
              schedulePass, schedulePassAux, findActionIndex,
              calculateCurrentTimestamp, h, hp, hq]
    · simp [seekTo, hp, findActionIndex, h]
  · intro s now h hp hq
    simp [play, scheduleNextActions, scheduleCore, schedulePass,
          schedulePassAux, findActionIndex, h, hp, hq]

/-- Witness for C9: a singleton log with all timestamps below the target, an
empty-log seek, and an empty-log fresh play. -/
theorem findActionIndex_none_is_neg_one_witness :
    findActionIndex [⟨"click", (0 : ℚ)⟩] 5 = -1 ∧
    (seekTo (mkPlayer 1 false false) 100 0).state.actionIndex = -1 ∧
    (play (mkPlayer 1 false false) 0).state.actionIndex = -1 :=
  ⟨findActionIndex_none_is_neg_one.1 _ _ (by decide),
   findActionIndex_none_is_neg_one.2.1 _ _ _ rfl,
   findActionIndex_none_is_neg_one.2.2 _ _ rfl rfl rfl⟩

/-- C1 (evaluation at the spec's scenario): with the player paused at
`currentTimestamp = 500` on `log3`, after `setPlaybackSpeed(2.0)` and
`play()` the scheduler arms the `input` action with delay 0 and the
`navigation` action (timestamp 2500) with delay `2500 / 2 - 500 = 750`
milliseconds — not the `(2500 - 500) / 2 = 1000` milliseconds the
specification states.  The armed delay makes `navigation` fire when the
virtual position is `500 + 750 * 2 = 2000`, not 2500. -/
theorem c1_navigation_fires_at_750 :
    (play (setPlaybackSpeed pausedAt500 2 10000).state 10000).timers =
      [(1, 0, ⟨"input", 1000⟩), (2, 750, ⟨"navigation", 2500⟩)] := by
  norm_num [play, setPlaybackSpeed, pausedAt500, pause, scheduleNextActions,
    scheduleCore, schedulePass, schedulePassAux, calculateCurrentTimestamp,
    findActionIndex, log3, emitAction]

/-- A player actively playing `log3` from position 0 with anchor
`startTime = 0` and speed 1. -/
def playingFrom0 : PlayerState :=
  { pausedAt500 with isPaused := false, currentTimestamp := 0, actionIndex := 0 }

/-- C4 (evaluation at a failing input): a player playing from position 0
(anchor `startTime = 0`, speed 1) has live position 5000 at `now = 5000`,
but `pause()` sets `isPaused` before reading `calculateCurrentTimestamp()`,
so the stored `currentTimestamp` stays 0; after `play()` at `now = 7000` the
resumed position is 0, not the 5000 the player was at when paused. -/
theorem c4_pause_snapshot_is_noop :
    calculateCurrentTimestamp playingFrom0 5000 = 5000 ∧
    (pause playingFrom0 5000).state.currentTimestamp = 0 ∧
    (pause playingFrom0 5000).state.isPaused = true ∧
    calculateCurrentTimestamp
      (play (pause playingFrom0 5000).state 7000).state 7000 = 0 := by
  norm_num [play, pause, pausedAt500, playingFrom0, scheduleNextActions,
    scheduleCore, schedulePass, schedulePassAux, calculateCurrentTimestamp,
    findActionIndex, log3, emitAction]

/-! ### Properties of the scheduling pass (claim C3) -/

/-- The actions the pass emits synchronously are exactly the negative-delay
suffix entries when `debugMode` is on, and nothing otherwise. -/
theorem schedulePassAux_emitted (sp : ℚ) (dbg : Bool) (ct : ℚ) :
    ∀ (l : List Action) (i : Nat) (idx : Int),
      (schedulePassAux sp dbg ct l i idx).1 =
        if dbg then l.filter (fun a => decide (a.timestamp / sp - ct < 0))
        else [] := by
  intro l
  induction l with
  | nil => intro i idx; cases dbg <;> simp [schedulePassAux]
  | cons a rest ih =>
    intro i idx
    by_cases h : a.timestamp / sp - ct < 0
    · have h2 : a.timestamp / sp < ct := by linarith
      cases dbg <;> simp [schedulePassAux, h, ih, List.filter_cons, h2]
    · have h2 : ¬ a.timestamp / sp < ct := by
        rw [not_lt] at h ⊢; linarith
      cases dbg <;> simp [schedulePassAux, h, ih, List.filter_cons, h2]

/-- The threaded `actionIndex` value never decreases below its starting value
when the pass starts at or beyond it. -/
theorem schedulePassAux_idx_le (sp : ℚ) (dbg : Bool) (ct : ℚ) :
    ∀ (l : List Action) (i : Nat) (idx : Int), idx ≤ (i : Int) →
      idx ≤ (schedulePassAux sp dbg ct l i idx).2.1 := by
  intro l
  induction l with
  | nil => intro i idx h; simp [schedulePassAux]
  | cons a rest ih =>
    intro i idx h
    by_cases hd : a.timestamp / sp - ct < 0
    · have h2 := ih (i + 1) ((i : Int) + 1) (by push_cast; omega)
      simp only [schedulePassAux, if_pos hd]
      exact le_trans (by omega) h2
    · have h2 := ih (i + 1) idx (by push_cast at h ⊢; omega)
      simp only [schedulePassAux, if_neg hd]
      exact h2

/-- Every negative-delay entry at absolute position `i + k` ends up strictly
below the final `actionIndex`: the cursor advances past it. -/
theorem schedulePassAux_neg_lt (sp : ℚ) (dbg : Bool) (ct : ℚ) :
    ∀ (l : List Action) (i : Nat) (idx : Int) (k : Nat) (a : Action),
      l[k]? = some a → a.timestamp / sp - ct < 0 →
      ((i + k : Nat) : Int) < (schedulePassAux sp dbg ct l i idx).2.1 := by
  intro l
  induction l with
  | nil => intro i idx k a hk; simp at hk
  | cons b rest ih =>
    intro i idx k a hk hneg
    cases k with
    | zero =>
      have hb : b = a := by simpa using hk
      subst hb
      simp only [schedulePassAux, if_pos hneg]
      have h2 := schedulePassAux_idx_le sp dbg ct rest (i + 1) ((i : Int) + 1)
        (by push_cast; omega)
      exact lt_of_lt_of_le (by push_cast; omega) h2
    | succ k =>
      have hk2 : rest[k]? = some a := by simpa using hk
      have hidx : ((i + (k + 1) : Nat) : Int) = (((i + 1) + k : Nat) : Int) := by
        push_cast; omega
      by_cases hd : b.timestamp / sp - ct < 0
      · have h2 := ih (i + 1) ((i : Int) + 1) k a hk2 hneg
        simp only [schedulePassAux, if_pos hd]
        rw [hidx]; exact h2
      · have h2 := ih (i + 1) idx k a hk2 hneg
        simp only [schedulePassAux, if_neg hd]
        rw [hidx]; exact h2

/-- Every non-negative-delay entry at absolute position `i + k` is armed on a
one-shot timer carrying exactly its computed delay. -/
theorem schedulePassAux_nonneg_mem (sp : ℚ) (dbg : Bool) (ct : ℚ) :
    ∀ (l : List Action) (i : Nat) (idx : Int) (k : Nat) (a : Action),
      l[k]? = some a → ¬(a.timestamp / sp - ct < 0) →
      ((i + k : Nat), a.timestamp / sp - ct, a)
        ∈ (schedulePassAux sp dbg ct l i idx).2.2 := by
  intro l
  induction l with
  | nil => intro i idx k a hk; simp at hk
  | cons b rest ih =>
    intro i idx k a hk hnn
    cases k with
    | zero =>
      have hb : b = a := by simpa using hk
      subst hb
      simp only [schedulePassAux, if_neg hnn]
      simp
    | succ k =>
      have hk2 : rest[k]? = some a := by simpa using hk
      have hidx : (i + (k + 1) : Nat) = ((i + 1) + k : Nat) := by omega
      by_cases hd : b.timestamp / sp - ct < 0
      · have h2 := ih (i + 1) ((i : Int) + 1) k a hk2 hnn
        simp only [schedulePassAux, if_pos hd]
        rw [hidx]; exact h2
      · have h2 := ih (i + 1) idx k a hk2 hnn
        simp only [schedulePassAux, if_neg hd]
        rw [hidx]; exact List.mem_cons_of_mem _ h2

/-- C3: in the scheduling pass of `scheduleNextActions`, started at cursor
`start` with current position `ct`, every remaining action (index `i` with
`start ≤ i`) whose delay `timestamp / speed - ct` is negative is emitted
immediately if and only if `debugMode` is enabled, and the final
`actionIndex` advances past it in either case; every remaining action with
non-negative delay is armed on a one-shot timer for exactly that delay. -/
theorem scheduleNextActions_catchup_policy (log : List Action) (speed ct : ℚ)
    (debug : Bool) (start i : Nat) (hi : i < log.length) (hs : start ≤ i) :
    (log[i].timestamp / speed - ct < 0 →
      ((log[i] ∈ (schedulePass log speed debug (start : Int) ct).1)
          ↔ debug = true) ∧
      (i : Int) < (schedulePass log speed debug (start : Int) ct).2.1) ∧
    (¬(log[i].timestamp / speed - ct < 0) →
      (i, log[i].timestamp / speed - ct, log[i])
        ∈ (schedulePass log speed debug (start : Int) ct).2.2) := by
  have hpass : schedulePass log speed debug (start : Int) ct
      = schedulePassAux speed debug ct (log.drop start) start (start : Int) := by
    simp [schedulePass]
  have hik : start + (i - start) = i := by omega
  have hget : (log.drop start)[i - start]? = some log[i] := by
    rw [List.getElem?_drop, hik]
    exact List.getElem?_eq_getElem hi
  constructor
  · intro hneg
    constructor
    · rw [hpass, schedulePassAux_emitted]
      cases debug with
      | false => simp
      | true =>
        simp only [if_true, iff_true_intro rfl, iff_true]
        exact List.mem_filter.mpr ⟨List.getElem?_mem hget, by simpa using hneg⟩
    · rw [hpass]
      have h2 := schedulePassAux_neg_lt speed debug ct (log.drop start) start
        (start : Int) (i - start) log[i] hget hneg
      rwa [hik] at h2
  · intro hnn
    rw [hpass]
    have h2 := schedulePassAux_nonneg_mem speed debug ct (log.drop start) start
      (start : Int) (i - start) log[i] hget hnn
    rwa [hik] at h2

/-- Witness for C3 on `log3` at position 500: the click (delay `-500`) is
not emitted with `debugMode` off and the cursor advances past it; the input
(delay `500`) is armed on a timer for 500. -/
theorem scheduleNextActions_catchup_policy_witness :
    ((log3[0] ∈ (schedulePass log3 1 false ((0 : Nat) : Int) 500).1)
        ↔ false = true) ∧
    ((0 : Nat) : Int) < (schedulePass log3 1 false ((0 : Nat) : Int) 500).2.1 ∧
    ((1 : Nat), log3[1].timestamp / 1 - 500, log3[1])
      ∈ (schedulePass log3 1 false ((0 : Nat) : Int) 500).2.2 := by
  have h0 := scheduleNextActions_catchup_policy log3 1 500 false 0 0
    (by norm_num [log3]) (Nat.le_refl 0)
  have h1 := scheduleNextActions_catchup_policy log3 1 500 false 0 1
    (by norm_num [log3]) (by omega)
  have hneg : log3[0].timestamp / 1 - 500 < 0 := by norm_num [log3]
  have hnn : ¬ (log3[1].timestamp / 1 - 500 < 0) := by norm_num [log3]
  exact ⟨(h0.1 hneg).1, (h0.1 hneg).2, h1.2 hnn⟩

/-! ### Playback from the start (claim C5) -/

/-- The timers the pass arms when every delay is non-negative: one per
remaining action, carrying its computed delay, in log order. -/
def armAll (sp ct : ℚ) : List Action → Nat → List Timer
  | [], _ => []
  | a :: rest, i => (i, a.timestamp / sp - ct, a) :: armAll sp ct rest (i + 1)

/-- When no remaining action has a negative delay the pass emits nothing,
leaves the cursor untouched, and arms every remaining action. -/
theorem schedulePassAux_all_nonneg (sp : ℚ) (dbg : Bool) (ct : ℚ) :
    ∀ (l : List Action) (i : Nat) (idx : Int),
      (∀ a ∈ l, ¬(a.timestamp / sp - ct < 0)) →
      schedulePassAux sp dbg ct l i idx = ([], idx, armAll sp ct l i) := by
  intro l
  induction l with
  | nil => intro i idx h; simp [schedulePassAux, armAll]
  | cons a rest ih =>
    intro i idx h
    have ha := h a (List.mem_cons_self a rest)
    have hr := ih (i + 1) idx (fun b hb => h b (List.mem_cons_of_mem a hb))
    simp [schedulePassAux, ha, hr, armAll]

/-- The actions carried by the armed timers, in arming order, are the
remaining log. -/
theorem armAll_map_action (sp ct : ℚ) :
    ∀ (l : List Action) (i : Nat),
      (armAll sp ct l i).map (fun t => t.2.2) = l := by
  intro l
  induction l with
  | nil => intro i; simp [armAll]
  | cons a rest ih => intro i; simp [armAll, ih]

/-- Every armed timer's delay is the computed delay of some remaining
action. -/
theorem armAll_mem_delay (sp ct : ℚ) :
    ∀ (l : List Action) (i : Nat) (x : Timer), x ∈ armAll sp ct l i →
      ∃ b ∈ l, x.2.1 = b.timestamp / sp - ct := by
  intro l
  induction l with
  | nil => intro i x hx; simp [armAll] at hx
  | cons a rest ih =>
    intro i x hx
    rw [armAll, List.mem_cons] at hx
    cases hx with
    | inl h => exact ⟨a, List.mem_cons_self a rest, by rw [h]⟩
    | inr h =>
      obtain ⟨b, hb, he⟩ := ih (i + 1) x h
      exact ⟨b, List.mem_cons_of_mem a hb, he⟩

/-- A timestamp-sorted remaining log arms timers with non-decreasing delays
(positive speed keeps division monotone). -/
theorem armAll_delay_pairwise (sp ct : ℚ) (hsp : 0 < sp) :
    ∀ (l : List Action) (i : Nat),
      List.Pairwise (fun a b => a.timestamp ≤ b.timestamp) l →
      List.Pairwise (fun x y : Timer => x.2.1 ≤ y.2.1) (armAll sp ct l i) := by
  intro l
  induction l with
  | nil => intro i _; simp [armAll]
  | cons a rest ih =>
    intro i hp
    rw [List.pairwise_cons] at hp
    rw [armAll, List.pairwise_cons]
    refine ⟨?_, ih (i + 1) hp.2⟩
    intro x hx
    obtain ⟨b, hb, he⟩ := armAll_mem_delay sp ct rest (i + 1) x hx
    rw [he]
    exact sub_le_sub_right ((div_le_div_iff_of_pos_right hsp).mpr (hp.1 b hb)) ct

/-- A timer whose delay is at most every delay of the queue is inserted at
the front. -/
theorem insertTimer_front (x : Timer) :
    ∀ (ys : List Timer), (∀ y ∈ ys, x.2.1 ≤ y.2.1) →
      insertTimer x ys = x :: ys := by
  intro ys h
  cases ys with
  | nil => rfl
  | cons y ys =>
    have hy : ¬ (y.2.1 < x.2.1) := not_lt.mpr (h y (List.mem_cons_self y ys))
    simp [insertTimer, hy]

/-- A batch armed with already non-decreasing delays fires in arming
order. -/
theorem sortTimers_of_pairwise :
    ∀ (T : List Timer),
      List.Pairwise (fun x y : Timer => x.2.1 ≤ y.2.1) T → sortTimers T = T := by
  intro T
  induction T with
  | nil => intro _; rfl
  | cons x xs ih =>
    intro hp
    rw [List.pairwise_cons] at hp
    rw [sortTimers, ih hp.2, insertTimer_front x xs hp.1]

/-- `play()` invoked on a freshly constructed player (speed 1, `loop`
disabled) holding `log` as its loaded action log. -/
def playFromStart (log : List Action) (debug : Bool) (now : ℚ) : PResult :=
  play { mkPlayer 1 false debug with actionLog := log } now

/-- The full emitted `action` sequence of one play call: the synchronously
emitted catch-up actions followed by the timer firings in firing order. -/
def emittedActions (r : PResult) : List Action :=
  (r.events.filterMap fun e =>
    match e with
    | PEvent.actionE a => some a
    | _ => none) ++ fireSequence r.timers

/-- C5: for every non-empty log sorted ascending by timestamp (with
non-negative timestamps, per the data model), playing from the start at
speed 1 with `loop` disabled emits exactly the log — every action exactly
once, in non-decreasing timestamp order, none skipped, duplicated or
out of order. -/
theorem play_from_start_emits_log (log : List Action) (debug : Bool) (now : ℚ)
    (hne : log ≠ [])
    (hsort : List.Pairwise (fun a b => a.timestamp ≤ b.timestamp) log)
    (hnn : ∀ a ∈ log, 0 ≤ a.timestamp) :
    emittedActions (playFromStart log debug now) = log ∧
    List.Pairwise (fun a b => a.timestamp ≤ b.timestamp)
      (emittedActions (playFromStart log debug now)) := by
  have hfind : findActionIndex log 0 = 0 := by
    cases log with
    | nil => exact absurd rfl hne
    | cons a rest =>
      simp [findActionIndex, hnn a (List.mem_cons_self a rest)]
  have hlen : ¬ ((log.length : Int) ≤ (0 : Int)) := by
    have hl : 0 < log.length := List.length_pos.mpr hne
    omega
  have hpassed : schedulePassAux 1 debug 0 log 0 0 = ([], 0, armAll 1 0 log 0) :=
    schedulePassAux_all_nonneg 1 debug 0 log 0 0
      (fun a ha => by simpa using not_lt.mpr (hnn a ha))
  have key : emittedActions (playFromStart log debug now) = log := by
    simp only [playFromStart, play, mkPlayer, emittedActions, scheduleNextActions,
      scheduleCore, schedulePass, calculateCurrentTimestamp, fireSequence]
    norm_num [hfind, hlen, hpassed]
    rw [sortTimers_of_pairwise _ (armAll_delay_pairwise 1 0 one_pos log 0 hsort)]
    exact armAll_map_action 1 0 log 0
  exact ⟨key, by rw [key]; exact hsort⟩

/-- Witness for C5 on the spec's three-action log. -/
theorem play_from_start_emits_log_witness :
    emittedActions (playFromStart log3 false 0) = log3 ∧
    List.Pairwise (fun a b => a.timestamp ≤ b.timestamp)
      (emittedActions (playFromStart log3 false 0)) :=
  play_from_start_emits_log log3 false 0 (by decide)
    (by norm_num [log3]) (by norm_num [log3])

end EventStream
